import Mathlib

/-!
Shallow embedding of the planner repository's persistence / sync /
enhancement core, together with theorems checking the natural-language
specification against it.

Sources embedded:
- `src/ai-planning-assistant/src/types/plan.ts` and the enhancement type
  module: the `Plan`, `PlanItem`, `StructuredPlanData`, `Enhancement`,
  `Change` data model.
- `src/ai-planning-assistant/src/services/planService.ts`: the plan
  mutation service (`createPlan`, `updatePlan`, `deletePlan`,
  `addPlanItem`, `updatePlanItem`, `removePlanItem`, `processSyncQueue`,
  `getSyncQueueStatus`) over the IndexedDB stores.
- `src/ai-planning-assistant/src/services/enhancementService.ts`: the
  enhancement / history / rollback subsystem (`approveChanges`,
  `rejectChanges`, `editChange`, `rollbackChange`,
  `extractChangeIndex`).
- `src/ai-planning-assistant/src/hooks/usePlans.ts` (the hook file
  bundled with `usePlanContext.tsx`): the completion-percentage
  helpers.

Modelling conventions:
- The IndexedDB object stores (`plans`, `syncQueue`, `enhancements`,
  `changeHistory`) are association lists keyed by `id`; `put` is an
  upsert, `delete` filters by key, `get` is `find?`.  `crypto.randomUUID`
  and `new Date()` become explicit parameters (`MutCtx`, `uuid`
  supplies); dates are modelled as `Nat` timestamps.
- `async` storage operations that the service code does not guard
  (`savePlan`, `put`, `delete`) are modelled as always succeeding; the
  thrown `Error('Plan not found')` / `Error('Plan item not found')` /
  enhancement errors become the `Except` error cases the service
  explicitly raises.
- JS `any` values that flow through `Change.oldValue` / `newValue` and
  the history entries are modelled by the inductive `Value`, with
  `Value.undef` standing for JS `undefined` (which is what an absent
  optional field reads as).
-/

/-! ## Data model (types/plan.ts, types/enhancement.ts) -/

inductive PlanType where
  | routine | meal | workout | schedule | custom
deriving DecidableEq

inductive ItemType where
  | task | event | note | reminder
deriving DecidableEq

inductive ItemStatus where
  | pending | inProgress | completed | cancelled
deriving DecidableEq

inductive RecurrencePattern where
  | daily | weekly | monthly | custom
deriving DecidableEq

structure RecurrenceInfo where
  pattern : RecurrencePattern
  interval : Nat
  daysOfWeek : Option (List Nat)
  endDate : Option Nat
deriving DecidableEq

structure TimingInfo where
  startTime : Option Nat
  endTime : Option Nat
  duration : Option Nat
  recurrence : Option RecurrenceInfo
deriving DecidableEq

inductive Flexibility where
  | strict | moderate | flexible
deriving DecidableEq

structure ScheduleInfo where
  startDate : Nat
  endDate : Option Nat
  timeZone : String
  flexibility : Flexibility
deriving DecidableEq

inductive GoalPriority where
  | low | medium | high
deriving DecidableEq

structure Goal where
  id : String
  description : String
  targetDate : Option Nat
  priority : GoalPriority
  measurable : Bool
deriving DecidableEq

/-- `PlanItem` from types/plan.ts; `order` is the position integer the
invariants are about. -/
structure PlanItem where
  id : String
  text : String
  type : ItemType
  timing : Option TimingInfo
  status : ItemStatus
  aiGenerated : Bool
  parentId : Option String
  order : Nat
deriving DecidableEq

structure StructuredPlanData where
  type : PlanType
  items : List PlanItem
  schedule : Option ScheduleInfo
  goals : Option (List Goal)
  tags : List String
  category : Option String
  estimatedDuration : Option Nat
deriving DecidableEq

inductive MetadataSource where
  | userInput | aiGenerated | imported
deriving DecidableEq

inductive Complexity where
  | simple | moderate | complex
deriving DecidableEq

structure PlanMetadata where
  source : MetadataSource
  language : String
  complexity : Complexity
  lastAiProcessed : Option Nat
  processingVersion : Option String
deriving DecidableEq

structure NaturalLanguageContent where
  originalText : String
  processedText : Option String
  confidence : Option ℚ
  ambiguities : Option (List String)
deriving DecidableEq

structure Plan where
  id : String
  userId : String
  title : String
  content : NaturalLanguageContent
  structuredData : StructuredPlanData
  metadata : PlanMetadata
  version : Nat
  createdAt : Nat
  updatedAt : Nat
deriving DecidableEq

/-! ## Partial patches (TS `Partial<...>` inputs)

A `none` field means the key is absent from the JS object, so an object
spread `{...base, ...patch}` keeps the base's value; a `some` field
overrides it. -/

/-- `Partial<PlanItem>` as accepted by `updatePlanItem`. -/
structure PlanItemPatch where
  id : Option String := none
  text : Option String := none
  type : Option ItemType := none
  timing : Option (Option TimingInfo) := none
  status : Option ItemStatus := none
  aiGenerated : Option Bool := none
  parentId : Option (Option String) := none
  order : Option Nat := none
deriving DecidableEq

/-- The JS spread `{...item, ...patch}`. -/
def applyItemPatch (it : PlanItem) (p : PlanItemPatch) : PlanItem :=
  { id := p.id.getD it.id
    text := p.text.getD it.text
    type := p.type.getD it.type
    timing := p.timing.getD it.timing
    status := p.status.getD it.status
    aiGenerated := p.aiGenerated.getD it.aiGenerated
    parentId := p.parentId.getD it.parentId
    order := p.order.getD it.order }

/-- `Partial<StructuredPlanData>` as carried by create/update inputs. -/
structure StructuredPlanDataPatch where
  type : Option PlanType := none
  items : Option (List PlanItem) := none
  schedule : Option (Option ScheduleInfo) := none
  goals : Option (Option (List Goal)) := none
  tags : Option (List String) := none
  category : Option (Option String) := none
  estimatedDuration : Option (Option Nat) := none
deriving DecidableEq

/-- The JS spread `{...sd, ...patch}` used by `updatePlan` (and, over
the default payload, by `createPlan`). -/
def mergeStructuredData (sd : StructuredPlanData) (p : StructuredPlanDataPatch) :
    StructuredPlanData :=
  { type := p.type.getD sd.type
    items := p.items.getD sd.items
    schedule := p.schedule.getD sd.schedule
    goals := p.goals.getD sd.goals
    tags := p.tags.getD sd.tags
    category := p.category.getD sd.category
    estimatedDuration := p.estimatedDuration.getD sd.estimatedDuration }

/-- `CreatePlanInput` from planService.ts. -/
structure CreatePlanInput where
  title : String
  content : NaturalLanguageContent
  userId : String
  structuredData : Option StructuredPlanDataPatch
deriving DecidableEq

/-- `UpdatePlanInput` from planService.ts. -/
structure UpdatePlanInput where
  id : String
  title : Option String := none
  content : Option NaturalLanguageContent := none
  structuredData : Option StructuredPlanDataPatch := none
deriving DecidableEq

/-- `Omit<PlanItem, 'id' | 'order'>` as accepted by `addPlanItem`. -/
structure NewPlanItem where
  text : String
  type : ItemType
  timing : Option TimingInfo := none
  status : ItemStatus
  aiGenerated : Bool
  parentId : Option String := none
deriving DecidableEq

/-! ## Enhancement data model -/

inductive ChangeOperation where
  | add | modify | remove
deriving DecidableEq

inductive EnhancementType where
  | structural | schedule | categorization | optimization
deriving DecidableEq

inductive EnhancementStatus where
  | pending | approved | rejected
deriving DecidableEq

/-- Model of the JS `any` values flowing through `Change.oldValue`,
`Change.newValue` and the history entries.  `undef` is JS `undefined`
(the value read from an absent optional field). -/
inductive Value where
  | undef
  | str (s : String)
  | num (n : Int)
deriving DecidableEq

structure Change where
  operation : ChangeOperation
  target : String
  oldValue : Value
  newValue : Value
  description : String
  confidence : Option ℚ
deriving DecidableEq

structure Enhancement where
  id : String
  planId : String
  type : EnhancementType
  changes : List Change
  confidence : ℚ
  reasoning : String
  status : EnhancementStatus
  createdAt : Nat
  appliedAt : Option Nat
  rejectedAt : Option Nat
  userFeedback : Option String
deriving DecidableEq

/-- The two shapes stored in `ChangeHistoryEntry.rollbackData`:
`{operation, target}` on a forward application (approveChanges), and
`{isRollback: true, originalHistoryEntryId}` on a rollback. -/
inductive RollbackData where
  | forward (operation : ChangeOperation) (target : String)
  | rollbackInfo (originalHistoryEntryId : String)
deriving DecidableEq

/-- The optional-chained read `historyEntry.rollbackData?.target`. -/
def RollbackData.targetField : RollbackData → Option String
  | .forward _ t => some t
  | .rollbackInfo _ => none

structure ChangeHistoryEntry where
  id : String
  enhancementId : String
  planId : String
  changeId : String
  appliedAt : Nat
  appliedBy : String
  originalValue : Value
  appliedValue : Value
  rollbackData : Option RollbackData
deriving DecidableEq

/-! ## Sync queue (indexeddb.ts) -/

inductive SyncOperation where
  | create | update | delete
deriving DecidableEq

structure SyncQueueItem where
  id : String
  operation : SyncOperation
  planId : String
  data : Option Plan
  timestamp : Nat
  retryCount : Nat
deriving DecidableEq

/-! ## The persistent stores

One record per IndexedDB object store: `plans` and `syncQueue` from
indexeddb.ts, `enhancements` and `changeHistory` from
enhancementService.ts.  `put` is an upsert keyed by `id`. -/

structure Store where
  plans : List Plan
  queue : List SyncQueueItem
  enhancements : List Enhancement
  history : List ChangeHistoryEntry
deriving DecidableEq

/-- IndexedDB `store.put(x)` with `keyPath: 'id'`: replace the record
with the same key if present, otherwise add. -/
def upsertBy {α : Type} (key : α → String) (l : List α) (x : α) : List α :=
  if l.any (fun y => key y == key x) then
    l.map (fun y => if key y == key x then x else y)
  else
    l ++ [x]

instance exceptDecEq {ε α : Type} [DecidableEq ε] [DecidableEq α] :
    DecidableEq (Except ε α) := fun x y =>
  match x, y with
  | .ok a, .ok b =>
    if h : a = b then isTrue (by rw [h])
    else isFalse (by intro hh; cases hh; exact h rfl)
  | .error e, .error f =>
    if h : e = f then isTrue (by rw [h])
    else isFalse (by intro hh; cases hh; exact h rfl)
  | .ok _, .error _ => isFalse (by intro hh; cases hh)
  | .error _, .ok _ => isFalse (by intro hh; cases hh)

def findPlan (st : Store) (planId : String) : Option Plan :=
  st.plans.find? (fun p => p.id == planId)

def savePlan (st : Store) (p : Plan) : Store :=
  { st with plans := upsertBy (fun q => q.id) st.plans p }

def deletePlanRecord (st : Store) (planId : String) : Store :=
  { st with plans := st.plans.filter (fun p => p.id != planId) }

/-! ## Plan mutation service (planService.ts)

`MutCtx` carries the ambient effects of one service call: the current
time (`new Date()`), the fresh UUID handed out by `crypto.randomUUID()`
for the entity the call creates, the fresh UUID for the sync-queue
record, and the service's `isOnline` flag. -/

structure MutCtx where
  now : Nat
  freshId : String
  freshQueueId : String
  online : Bool
deriving DecidableEq

inductive ServiceError where
  | planNotFound
  | planItemNotFound
deriving DecidableEq

/-- `indexedDBService.addToSyncQueue`: stamps a fresh id, the current
time and `retryCount: 0`, then `put`s the item. -/
def addToSyncQueue (st : Store) (c : MutCtx) (op : SyncOperation)
    (planId : String) (data : Option Plan) : Store :=
  { st with
    queue := upsertBy (fun q => q.id) st.queue
      { id := c.freshQueueId, operation := op, planId := planId
        data := data, timestamp := c.now, retryCount := 0 } }

/-- The `if (!this.isOnline) addToSyncQueue(...)` step shared by every
mutation. -/
def queueIfOffline (st : Store) (c : MutCtx) (op : SyncOperation)
    (planId : String) (data : Option Plan) : Store :=
  if c.online then st else addToSyncQueue st c op planId data

/-- The default structured payload `{type: 'custom', items: [], tags: []}`
that `createPlan` spreads the input's partial payload over. -/
def defaultStructuredData : StructuredPlanData :=
  { type := .custom, items := [], schedule := none, goals := none
    tags := [], category := none, estimatedDuration := none }

/-- `planService.createPlan`. -/
def createPlan (st : Store) (c : MutCtx) (input : CreatePlanInput) :
    Store × Plan :=
  let plan : Plan :=
    { id := c.freshId
      userId := input.userId
      title := input.title
      content := input.content
      structuredData :=
        mergeStructuredData defaultStructuredData (input.structuredData.getD {})
      metadata :=
        { source := .userInput, language := "en", complexity := .simple
          lastAiProcessed := none, processingVersion := none }
      version := 1
      createdAt := c.now
      updatedAt := c.now }
  let st1 := savePlan st plan
  let st2 := queueIfOffline st1 c .create plan.id (some plan)
  (st2, plan)

/-- `planService.updatePlan`.  The JS merge `{...existingPlan, ...input}`
overrides `id`, `title`, `content` with the input's present fields, and
the structured payload is merged field-by-field. -/
def updatePlan (st : Store) (c : MutCtx) (input : UpdatePlanInput) :
    Except ServiceError (Store × Plan) :=
  match findPlan st input.id with
  | none => .error .planNotFound
  | some existingPlan =>
    let updatedPlan : Plan :=
      { existingPlan with
        id := input.id
        title := input.title.getD existingPlan.title
        content := input.content.getD existingPlan.content
        structuredData :=
          mergeStructuredData existingPlan.structuredData
            (input.structuredData.getD {})
        version := existingPlan.version + 1
        updatedAt := c.now }
    let st1 := savePlan st updatedPlan
    let st2 := queueIfOffline st1 c .update updatedPlan.id (some updatedPlan)
    .ok (st2, updatedPlan)

/-- `planService.deletePlan`: deletes by key (a no-op when absent — the
store's `delete` succeeds whether or not the key exists), queues a
`delete` operation when offline, and never raises a not-found
condition. -/
def deletePlan (st : Store) (c : MutCtx) (planId : String) : Store :=
  let st1 := deletePlanRecord st planId
  queueIfOffline st1 c .delete planId none

/-- `planService.addPlanItem`: appends the new item with
`order = items.length`. -/
def addPlanItem (st : Store) (c : MutCtx) (planId : String)
    (item : NewPlanItem) : Except ServiceError (Store × Plan) :=
  match findPlan st planId with
  | none => .error .planNotFound
  | some plan =>
    let newItem : PlanItem :=
      { id := c.freshId
        text := item.text
        type := item.type
        timing := item.timing
        status := item.status
        aiGenerated := item.aiGenerated
        parentId := item.parentId
        order := plan.structuredData.items.length }
    let updatedPlan : Plan :=
      { plan with
        structuredData :=
          { plan.structuredData with
            items := plan.structuredData.items ++ [newItem] }
        version := plan.version + 1
        updatedAt := c.now }
    let st1 := savePlan st updatedPlan
    let st2 := queueIfOffline st1 c .update updatedPlan.id (some updatedPlan)
    .ok (st2, updatedPlan)

theorem findIdx?_lt_length {α : Type} {p : α → Bool} {l : List α} {i : Nat}
    (h : l.findIdx? p = some i) : i < l.length :=
  (List.findIdx?_eq_some_iff_findIdx_eq.mp h).1

/-- `planService.updatePlanItem`: locates the item by `findIndex` on its
id and overwrites it with the JS spread `{...item, ...updates}`.  No
re-indexing of `order` happens here. -/
def updatePlanItem (st : Store) (c : MutCtx) (planId itemId : String)
    (updates : PlanItemPatch) : Except ServiceError (Store × Plan) :=
  match findPlan st planId with
  | none => .error .planNotFound
  | some plan =>
    match plan.structuredData.items.findIdx? (fun it => it.id == itemId) with
    | none => .error .planItemNotFound
    | some itemIndex =>
      match plan.structuredData.items[itemIndex]? with
      | none =>
        -- unreachable: `findIdx?` only returns indices inside the list
        .error .planItemNotFound
      | some it =>
      let updatedItems := plan.structuredData.items.set itemIndex (applyItemPatch it updates)
      let updatedPlan : Plan :=
        { plan with
          structuredData := { plan.structuredData with items := updatedItems }
          version := plan.version + 1
          updatedAt := c.now }
      let st1 := savePlan st updatedPlan
      let st2 := queueIfOffline st1 c .update updatedPlan.id (some updatedPlan)
      .ok (st2, updatedPlan)

/-- The in-place `updatedItems.forEach((item, index) => item.order = index)`
re-indexing loop of `removePlanItem`, starting from index `k`. -/
def reindexFrom (k : Nat) : List PlanItem → List PlanItem
  | [] => []
  | it :: rest => { it with order := k } :: reindexFrom (k + 1) rest

/-- `planService.removePlanItem`: filters the item out by id (removing
nothing when the id is absent — no not-found condition is raised),
re-indexes `order` over the remaining items, and commits a version
bump. -/
def removePlanItem (st : Store) (c : MutCtx) (planId itemId : String) :
    Except ServiceError (Store × Plan) :=
  match findPlan st planId with
  | none => .error .planNotFound
  | some plan =>
    let updatedItems :=
      reindexFrom 0 (plan.structuredData.items.filter (fun it => it.id != itemId))
    let updatedPlan : Plan :=
      { plan with
        structuredData := { plan.structuredData with items := updatedItems }
        version := plan.version + 1
        updatedAt := c.now }
    let st1 := savePlan st updatedPlan
    let st2 := queueIfOffline st1 c .update updatedPlan.id (some updatedPlan)
    .ok (st2, updatedPlan)

/-- `planService.processSyncQueue`: reads the whole queue and removes
each item by id (the local-only drain).  The store returns the items
sorted oldest-first; the removal order does not affect the resulting
queue, so the read list is folded directly. -/
def processSyncQueue (st : Store) : Store :=
  { st with
    queue := st.queue.foldl (fun acc it => acc.filter (fun x => x.id != it.id)) st.queue }

/-! ### getSyncQueueStatus -/

/-- The projection `{id, operation, planId, timestamp, retryCount}`
applied to each queue item by `getSyncQueueStatus`. -/
structure SyncQueueItemSummary where
  id : String
  operation : SyncOperation
  planId : String
  timestamp : Nat
  retryCount : Nat
deriving DecidableEq

structure SyncQueueStatus where
  pending : Nat
  items : List SyncQueueItemSummary
deriving DecidableEq

/-- A storage-layer failure (the rejected promise from
`indexedDBService.init()` or `getSyncQueue()`). -/
def StorageError : Type := String

/-- `planService.getSyncQueueStatus`, as a total function of the result
of the underlying `init(); getSyncQueue()` calls: the `catch` branch
maps any storage failure to `{pending: 0, items: []}`, so the function
never raises. -/
def getSyncQueueStatus (r : Except StorageError (List SyncQueueItem)) :
    SyncQueueStatus :=
  match r with
  | .error _ => { pending := 0, items := [] }
  | .ok items =>
    { pending := items.length
      items := items.map (fun it =>
        { id := it.id, operation := it.operation, planId := it.planId
          timestamp := it.timestamp, retryCount := it.retryCount }) }

/-! ## Enhancement & history service (enhancementService.ts) -/

inductive EnhancementError where
  | enhancementNotFound (id : String)
  | changeNotFound (id : String)
  | historyEntryNotFound (id : String)
deriving DecidableEq

structure FailedOperation where
  id : String
  error : String
deriving DecidableEq

structure BatchOperationResult where
  successful : List String
  failed : List FailedOperation
deriving DecidableEq

def findEnhancement (st : Store) (enhancementId : String) : Option Enhancement :=
  st.enhancements.find? (fun e => e.id == enhancementId)

def saveEnhancement (st : Store) (e : Enhancement) : Store :=
  { st with enhancements := upsertBy (fun x => x.id) st.enhancements e }

def findHistoryEntry (st : Store) (entryId : String) : Option ChangeHistoryEntry :=
  st.history.find? (fun h => h.id == entryId)

/-- `saveChangeHistory`: `put`s each entry into the `changeHistory`
store. -/
def saveChangeHistoryEntries (st : Store) (entries : List ChangeHistoryEntry) :
    Store :=
  { st with
    history := entries.foldl (fun hs e => upsertBy (fun x => x.id) hs e) st.history }

/-- The maximal digit suffix of a string (the `(\d+)$` group). -/
def digitSuffix (s : String) : List Char :=
  (s.data.reverse.takeWhile Char.isDigit).reverse

/-- `extractChangeIndex`: matches the end-anchored regular expression
`-change-(\d+)$` and parses the digit group, returning `-1` when there
is no match.  A match requires a nonempty digit suffix immediately
preceded by `"-change-"`. -/
def extractChangeIndex (changeId : String) : Int :=
  let ds := digitSuffix changeId
  if ds.isEmpty then -1
  else if (changeId.dropRight ds.length).endsWith "-change-" then
    ((String.mk ds).toNat?).getD 0
  else -1

/-- The positional change ids `` `${enhancementId}-change-${index}` ``
synthesized when `changeIds` is omitted. -/
def defaultChangeIds (enhancementId : String) (n : Nat) : List String :=
  (List.range n).map (fun i => enhancementId ++ "-change-" ++ toString i)

/-- One iteration of the `for (const changeId of changesToApprove)` loop
in `approveChanges`: looks the change up by extracted index (JS
`arr[-1]` and out-of-range reads are `undefined`), records a failure or
builds a history entry.  `uuid` supplies `crypto.randomUUID()` for the
`entries.length`-th entry created. -/
def approveStep (e : Enhancement) (enhancementId userId : String) (now : Nat)
    (uuid : Nat → String)
    (acc : List ChangeHistoryEntry × BatchOperationResult) (changeId : String) :
    List ChangeHistoryEntry × BatchOperationResult :=
  let idx := extractChangeIndex changeId
  let change? := if idx < 0 then none else e.changes[idx.toNat]?
  match change? with
  | none =>
    (acc.1, { acc.2 with failed := acc.2.failed ++ [{ id := changeId, error := "Change not found" }] })
  | some change =>
    let entry : ChangeHistoryEntry :=
      { id := uuid acc.1.length
        enhancementId := enhancementId
        planId := e.planId
        changeId := changeId
        appliedAt := now
        appliedBy := userId
        originalValue := change.oldValue
        appliedValue := change.newValue
        rollbackData := some (.forward change.operation change.target) }
    (acc.1 ++ [entry], { acc.2 with successful := acc.2.successful ++ [changeId] })

/-- `enhancementService.approveChanges`: builds history entries for the
addressed changes (collecting per-change failures), saves them, then
unconditionally marks the enhancement `approved` with an `appliedAt`
stamp — there is no check of the current status and no all-failed
guard. -/
def approveChanges (st : Store) (enhancementId : String)
    (changeIds : Option (List String)) (userId : String) (now : Nat)
    (uuid : Nat → String) :
    Except EnhancementError (Store × BatchOperationResult) :=
  match findEnhancement st enhancementId with
  | none => .error (.enhancementNotFound enhancementId)
  | some enhancement =>
    let changesToApprove :=
      changeIds.getD (defaultChangeIds enhancementId enhancement.changes.length)
    let folded := changesToApprove.foldl
      (approveStep enhancement enhancementId userId now uuid)
      ([], { successful := [], failed := [] })
    let st1 := saveChangeHistoryEntries st folded.1
    let st2 := saveEnhancement st1
      { enhancement with status := .approved, appliedAt := some now }
    .ok (st2, folded.2)

/-- `enhancementService.rejectChanges`: unconditionally marks the
enhancement `rejected` with a `rejectedAt` stamp and the optional
feedback; all addressed change ids are reported successful.  No check
of the current status. -/
def rejectChanges (st : Store) (enhancementId : String)
    (changeIds : Option (List String)) (feedback : Option String)
    (_userId : String) (now : Nat) :
    Except EnhancementError (Store × BatchOperationResult) :=
  match findEnhancement st enhancementId with
  | none => .error (.enhancementNotFound enhancementId)
  | some enhancement =>
    let changesToReject :=
      changeIds.getD (defaultChangeIds enhancementId enhancement.changes.length)
    let st1 := saveEnhancement st
      { enhancement with
        status := .rejected, rejectedAt := some now, userFeedback := feedback }
    .ok (st1, { successful := changesToReject, failed := [] })

/-- `enhancementService.editChange`: replaces the addressed change's
`newValue` and appends an `" (edited by user)"` marker to its
description.  The only guards are existence of the enhancement and a
valid positional index — the enhancement's status is never
consulted. -/
def editChange (st : Store) (enhancementId changeId : String)
    (newValue : Value) (_userId : String) :
    Except EnhancementError Store :=
  match findEnhancement st enhancementId with
  | none => .error (.enhancementNotFound enhancementId)
  | some enhancement =>
    let changeIndex := extractChangeIndex changeId
    if h : changeIndex < 0 ∨ (enhancement.changes.length : Int) ≤ changeIndex then
      .error (.changeNotFound changeId)
    else
      have hlt : changeIndex.toNat < enhancement.changes.length := by omega
      let c := enhancement.changes.get ⟨changeIndex.toNat, hlt⟩
      let updatedChanges := enhancement.changes.set changeIndex.toNat
        { c with
          newValue := newValue
          description := c.description ++ " (edited by user)" }
      .ok (saveEnhancement st { enhancement with changes := updatedChanges })

/-- `enhancementService.rollbackChange`: reads the named history entry,
synthesizes a pre-approved rollback enhancement holding the single
inverse change (old/new values swapped), saves it, and appends one new
history entry flagged with `isRollback` — without touching the original
entry or the plans store.  `uuidE` / `uuidH` are the two
`crypto.randomUUID()` results. -/
def rollbackChange (st : Store) (historyEntryId userId : String) (now : Nat)
    (uuidE uuidH : String) : Except EnhancementError Store :=
  match findHistoryEntry st historyEntryId with
  | none => .error (.historyEntryNotFound historyEntryId)
  | some historyEntry =>
    let rollbackEnhancement : Enhancement :=
      { id := uuidE
        planId := historyEntry.planId
        type := .optimization
        changes :=
          [{ operation := .modify
             target := (historyEntry.rollbackData.bind RollbackData.targetField).getD "unknown"
             oldValue := historyEntry.appliedValue
             newValue := historyEntry.originalValue
             description := "Rollback of change from " ++ toString historyEntry.appliedAt
             confidence := some 1 }]
        confidence := 1
        reasoning := "User-requested rollback of previous change"
        status := .approved
        createdAt := now
        appliedAt := some now
        rejectedAt := none
        userFeedback := none }
    let st1 := saveEnhancement st rollbackEnhancement
    let rollbackHistoryEntry : ChangeHistoryEntry :=
      { id := uuidH
        enhancementId := rollbackEnhancement.id
        planId := historyEntry.planId
        changeId := rollbackEnhancement.id ++ "-change-0"
        appliedAt := now
        appliedBy := userId
        originalValue := historyEntry.appliedValue
        appliedValue := historyEntry.originalValue
        rollbackData := some (.rollbackInfo historyEntryId) }
    .ok (saveChangeHistoryEntries st1 [rollbackHistoryEntry])

/-- Interpretation of a `Change.target` path against a Plan document,
used to state the spec's round-trip law.  The source code never
evaluates target paths against a plan; this reads the `title` field for
the target `"title"` and is `undef` elsewhere. -/
def planValueAt (p : Plan) (target : String) : Value :=
  if target == "title" then .str p.title else Value.undef

/-! ## Completion percentage (usePlans hook) -/

/-- `getPlan` of the hook: looks the plan up in the in-memory list. -/
def lookupPlan (plans : List Plan) (planId : String) : Option Plan :=
  plans.find? (fun p => p.id == planId)

/-- `getCompletedItemsCount`: 0 when the plan is missing. -/
def getCompletedItemsCount (plans : List Plan) (planId : String) : Nat :=
  match lookupPlan plans planId with
  | none => 0
  | some plan =>
    (plan.structuredData.items.filter (fun it => it.status == .completed)).length

/-- `getTotalItemsCount`: 0 when the plan is missing. -/
def getTotalItemsCount (plans : List Plan) (planId : String) : Nat :=
  match lookupPlan plans planId with
  | none => 0
  | some plan => plan.structuredData.items.length

/-- JS `Math.round` on the (non-negative) ratios involved: round half
up, `⌊x + 1/2⌋`. -/
def jsRound (x : ℚ) : Int := ⌊x + 1 / 2⌋

/-- `getCompletionPercentage`: guards `total = 0` before dividing, so
the division is exact rational arithmetic on the integer counts and can
never produce NaN. -/
def getCompletionPercentage (plans : List Plan) (planId : String) : Int :=
  let total := getTotalItemsCount plans planId
  if total = 0 then 0
  else
    let completed := getCompletedItemsCount plans planId
    jsRound (((completed : ℚ) / (total : ℚ)) * 100)

/-! ## Store helper lemmas -/

theorem find?_upsertBy {α : Type} (key : α → String) (l : List α) (x : α) :
    (upsertBy key l x).find? (fun y => key y == key x) = some x := by
  unfold upsertBy
  by_cases h : l.any (fun y => key y == key x)
  · simp only [h, if_true]
    induction l with
    | nil => simp at h
    | cons a l ih =>
      simp only [List.map_cons, List.find?_cons]
      cases ha : (key a == key x) with
      | true => simp [ha]
      | false =>
        have h' : l.any (fun y => key y == key x) = true := by
          simp only [List.any_cons, ha, Bool.false_or] at h
          exact h
        simp only [ha, if_false, Bool.false_eq_true]
        simpa [ha] using ih h'
  · have hfalse : l.any (fun y => key y == key x) = false := by
      rwa [Bool.not_eq_true] at h
    simp only [hfalse, if_false, Bool.false_eq_true]
    rw [List.find?_append]
    have hnone : l.find? (fun y => key y == key x) = none := by
      rw [List.find?_eq_none]
      intro y hy
      have hne := List.any_eq_false.mp hfalse y hy
      simpa using hne
    simp [hnone]

theorem upsertBy_eq_append {α : Type} (key : α → String) (l : List α) (x : α)
    (hfresh : ∀ y ∈ l, key y ≠ key x) : upsertBy key l x = l ++ [x] := by
  unfold upsertBy
  have h : l.any (fun y => key y == key x) = false := by
    rw [List.any_eq_false]
    intro y hy
    simp only [beq_iff_eq]
    exact hfresh y hy
  simp [h]

theorem findPlan_savePlan (st : Store) (p : Plan) (planId : String)
    (hid : p.id = planId) : findPlan (savePlan st p) planId = some p := by
  unfold findPlan savePlan
  subst hid
  exact find?_upsertBy (fun q => q.id) st.plans p

theorem findEnhancement_saveEnhancement (st : Store) (e : Enhancement)
    (enhancementId : String) (hid : e.id = enhancementId) :
    findEnhancement (saveEnhancement st e) enhancementId = some e := by
  unfold findEnhancement saveEnhancement
  subst hid
  exact find?_upsertBy (fun x => x.id) st.enhancements e

theorem id_of_findPlan {st : Store} {planId : String} {p : Plan}
    (h : findPlan st planId = some p) : p.id = planId := by
  have := List.find?_some h
  simpa using this

theorem id_of_findEnhancement {st : Store} {enhancementId : String}
    {e : Enhancement} (h : findEnhancement st enhancementId = some e) :
    e.id = enhancementId := by
  have := List.find?_some h
  simpa using this

theorem findPlan_queueIfOffline (st : Store) (c : MutCtx) (op : SyncOperation)
    (planId dataId : String) (data : Option Plan) :
    findPlan (queueIfOffline st c op dataId data) planId = findPlan st planId := by
  unfold queueIfOffline addToSyncQueue findPlan
  by_cases h : c.online <;> simp [h]

theorem findEnhancement_saveChangeHistoryEntries (st : Store)
    (entries : List ChangeHistoryEntry) (enhancementId : String) :
    findEnhancement (saveChangeHistoryEntries st entries) enhancementId =
      findEnhancement st enhancementId := by
  unfold findEnhancement saveChangeHistoryEntries
  rfl

/-! ## Sync-queue drain lemmas -/

theorem mem_foldl_filterQueue (l : List SyncQueueItem) :
    ∀ (acc : List SyncQueueItem) (x : SyncQueueItem),
      x ∈ l.foldl (fun acc it => acc.filter (fun y => y.id != it.id)) acc →
      x ∈ acc := by
  induction l with
  | nil => intro acc x hx; simpa using hx
  | cons a l ih =>
    intro acc x hx
    have := ih (acc.filter (fun y => y.id != a.id)) x hx
    exact (List.mem_filter.mp this).1

theorem foldl_filterQueue_ne (l : List SyncQueueItem) :
    ∀ (acc : List SyncQueueItem) (a : SyncQueueItem), a ∈ l →
      ∀ x ∈ l.foldl (fun acc it => acc.filter (fun y => y.id != it.id)) acc,
        x.id ≠ a.id := by
  induction l with
  | nil => intro acc a ha; simp at ha
  | cons b l ih =>
    intro acc a ha x hx
    rcases List.mem_cons.mp ha with hab | hal
    · subst hab
      have hx' : x ∈ acc.filter (fun y => y.id != a.id) :=
        mem_foldl_filterQueue l _ x hx
      have := (List.mem_filter.mp hx').2
      simpa using this
    · exact ih _ a hal x hx

/-- The local-only drain empties the queue: every item read is removed
by id. -/
theorem processSyncQueue_queue (st : Store) : (processSyncQueue st).queue = [] := by
  unfold processSyncQueue
  rw [List.eq_nil_iff_forall_not_mem]
  intro x hx
  have hxq : x ∈ st.queue := mem_foldl_filterQueue st.queue st.queue x hx
  exact foldl_filterQueue_ne st.queue st.queue x hxq x hx rfl

/-! ## Order-invariant helpers -/

/-- The spec's item-order invariant: the `order` values are a
zero-based, contiguous permutation of the item list — equivalently, the
i-th item in order-sorted order has `order = i`. -/
def orderInvariant (items : List PlanItem) : Prop :=
  (items.map (fun it => it.order)).Perm (List.range items.length)

instance (items : List PlanItem) : Decidable (orderInvariant items) :=
  List.decidablePerm _ _

theorem map_order_reindexFrom :
    ∀ (l : List PlanItem) (k : Nat),
      (reindexFrom k l).map (fun it => it.order) = List.range' k l.length := by
  intro l
  induction l with
  | nil => intro k; simp [reindexFrom]
  | cons a l ih =>
    intro k
    simp [reindexFrom, List.range'_succ, ih]

theorem length_reindexFrom :
    ∀ (l : List PlanItem) (k : Nat), (reindexFrom k l).length = l.length := by
  intro l
  induction l with
  | nil => intro k; rfl
  | cons a l ih => intro k; simp [reindexFrom, ih]

theorem orderInvariant_reindexFrom (l : List PlanItem) :
    orderInvariant (reindexFrom 0 l) := by
  unfold orderInvariant
  rw [map_order_reindexFrom, length_reindexFrom, List.range_eq_range']

theorem set_get_self {α : Type} :
    ∀ (l : List α) (i : Nat) (h : i < l.length), l.set i (l.get ⟨i, h⟩) = l := by
  intro l
  induction l with
  | nil => intro i h; simp at h
  | cons a l ih =>
    intro i h
    cases i with
    | zero => rfl
    | succ j =>
      simp only [List.set_cons_succ, List.cons.injEq, true_and]
      exact ih j (by simpa using h)

/-! ## Concrete fixtures used by witnesses and counterexamples -/

def demoContent : NaturalLanguageContent :=
  { originalText := "demo text", processedText := none
    confidence := none, ambiguities := none }

def demoMetadata : PlanMetadata :=
  { source := .userInput, language := "en", complexity := .simple
    lastAiProcessed := none, processingVersion := none }

def demoItem (itemId : String) (ord : Nat) (stat : ItemStatus) : PlanItem :=
  { id := itemId, text := "task text", type := .task, timing := none
    status := stat, aiGenerated := false, parentId := none, order := ord }

def demoPlanWith (items : List PlanItem) : Plan :=
  { id := "p1", userId := "u1", title := "B", content := demoContent
    structuredData :=
      { type := .custom, items := items, schedule := none, goals := none
        tags := ["a"], category := none, estimatedDuration := none }
    metadata := demoMetadata, version := 1, createdAt := 0, updatedAt := 0 }

def demoStoreWith (plans : List Plan) : Store :=
  { plans := plans, queue := [], enhancements := [], history := [] }

/-- An online mutation context. -/
def demoCtxOn : MutCtx :=
  { now := 7, freshId := "fresh-1", freshQueueId := "queue-1", online := true }

/-- An offline mutation context. -/
def demoCtxOff : MutCtx :=
  { now := 7, freshId := "fresh-1", freshQueueId := "queue-1", online := false }

/-! ## C9 -/

/-- C9: `getSyncQueueStatus` never raises: it is a total function of the
storage outcome, any storage failure (failed `init` or queue read) is
mapped to `{pending: 0, items: []}`, and that result is exactly what an
empty queue produces, so a storage failure is indistinguishable from an
empty queue to the caller. -/
theorem getSyncQueueStatus_never_raises (e : StorageError) :
    getSyncQueueStatus (.error e) = { pending := 0, items := [] } ∧
    getSyncQueueStatus (.error e) = getSyncQueueStatus (.ok []) :=
  ⟨rfl, rfl⟩

/-! ## C6 -/

/-- C6: `getCompletionPercentage` equals round(100 × completed/total)
(exact rational arithmetic, rounding half up like `Math.round`), and is
exactly 0 whenever the item count is 0 — in particular whenever the
plan does not exist.  The `total = 0` guard precedes the division, so
no division by zero (and no NaN) can occur. -/
theorem getCompletionPercentage_formula (plans : List Plan) (planId : String) :
    getCompletionPercentage plans planId =
      jsRound (100 * (getCompletedItemsCount plans planId : ℚ) /
        (getTotalItemsCount plans planId : ℚ)) ∧
    (getTotalItemsCount plans planId = 0 →
      getCompletionPercentage plans planId = 0) ∧
    (lookupPlan plans planId = none →
      getCompletionPercentage plans planId = 0) := by
  refine ⟨?_, ?_, ?_⟩
  · unfold getCompletionPercentage
    by_cases h : getTotalItemsCount plans planId = 0
    · simp only [h, if_true]
      norm_num [jsRound]
    · simp only [h, if_false]
      congr 1
      have ht : (getTotalItemsCount plans planId : ℚ) ≠ 0 := by
        exact_mod_cast h
      field_simp
      ring
  · intro h
    unfold getCompletionPercentage
    simp [h]
  · intro h
    unfold getCompletionPercentage
    have htot : getTotalItemsCount plans planId = 0 := by
      unfold getTotalItemsCount
      simp [h]
    simp [htot]

theorem getCompletionPercentage_formula_witness :
    getTotalItemsCount [demoPlanWith []] "p1" = 0 ∧
    getCompletionPercentage [demoPlanWith []] "p1" = 0 :=
  ⟨by decide, (getCompletionPercentage_formula [demoPlanWith []] "p1").2.1 (by decide)⟩

/-! ## C7 -/

/-- C7: `updatePlan` merges the structured payload field-by-field:
every `StructuredPlanData` field not named in the partial patch keeps
the stored plan's value in the committed plan — a partial update (for
example to `tags` only) never erases `items`, `type`, `goals`,
`schedule`, `category` or `estimatedDuration`. -/
theorem updatePlan_merges_structuredData_fieldwise (st : Store) (c : MutCtx)
    (input : UpdatePlanInput) (plan : Plan) (st' : Store) (p' : Plan)
    (hfind : findPlan st input.id = some plan)
    (hok : updatePlan st c input = .ok (st', p')) :
    ((input.structuredData.getD {}).items = none →
      p'.structuredData.items = plan.structuredData.items) ∧
    ((input.structuredData.getD {}).type = none →
      p'.structuredData.type = plan.structuredData.type) ∧
    ((input.structuredData.getD {}).schedule = none →
      p'.structuredData.schedule = plan.structuredData.schedule) ∧
    ((input.structuredData.getD {}).goals = none →
      p'.structuredData.goals = plan.structuredData.goals) ∧
    ((input.structuredData.getD {}).tags = none →
      p'.structuredData.tags = plan.structuredData.tags) ∧
    ((input.structuredData.getD {}).category = none →
      p'.structuredData.category = plan.structuredData.category) ∧
    ((input.structuredData.getD {}).estimatedDuration = none →
      p'.structuredData.estimatedDuration = plan.structuredData.estimatedDuration) := by
  unfold updatePlan at hok
  rw [hfind] at hok
  simp only [Except.ok.injEq, Prod.mk.injEq] at hok
  obtain ⟨-, hp'⟩ := hok
  subst hp'
  refine ⟨?_, ?_, ?_, ?_, ?_, ?_, ?_⟩ <;>
    · intro h
      simp [mergeStructuredData, h]

def demoInputTagsOnly : UpdatePlanInput :=
  { id := "p1", structuredData := some { tags := some ["x", "y"] } }

def demoStore7 : Store := demoStoreWith [demoPlanWith [demoItem "i1" 0 .pending]]

def demoRes7 : Store × Plan :=
  (updatePlan demoStore7 demoCtxOn demoInputTagsOnly).toOption.getD
    (demoStore7, demoPlanWith [])

theorem updatePlan_merges_structuredData_fieldwise_witness :
    (demoInputTagsOnly.structuredData.getD {}).items = none ∧
    demoRes7.2.structuredData.items =
      (demoPlanWith [demoItem "i1" 0 .pending]).structuredData.items :=
  ⟨rfl,
    (updatePlan_merges_structuredData_fieldwise demoStore7 demoCtxOn
      demoInputTagsOnly (demoPlanWith [demoItem "i1" 0 .pending])
      demoRes7.1 demoRes7.2 rfl rfl).1 rfl⟩

/-! ## C8 -/

/-- C8: when the service is offline, a successful `createPlan` appends
exactly one `SyncQueueItem` to the queue, with `operation = create`,
`planId` equal to the new plan's id and `data` carrying the full
post-mutation document; and the drain triggered by going back online
(`processSyncQueue`) removes it, leaving the queue empty.  The
freshness hypothesis models `crypto.randomUUID` not colliding with an
existing queue id. -/
theorem createPlan_offline_enqueues_and_drain_removes (st : Store) (c : MutCtx)
    (input : CreatePlanInput) (hoff : c.online = false)
    (hfresh : ∀ q ∈ st.queue, q.id ≠ c.freshQueueId) :
    (createPlan st c input).1.queue =
      st.queue ++
        [{ id := c.freshQueueId, operation := .create
           planId := (createPlan st c input).2.id
           data := some (createPlan st c input).2
           timestamp := c.now, retryCount := 0 }] ∧
    (createPlan st c input).2.id = c.freshId ∧
    (processSyncQueue (createPlan st c input).1).queue = [] := by
  refine ⟨?_, rfl, processSyncQueue_queue _⟩
  unfold createPlan queueIfOffline addToSyncQueue savePlan
  simp only [hoff, if_false, Bool.false_eq_true]
  exact upsertBy_eq_append _ _ _ hfresh

def demoCreateInput : CreatePlanInput :=
  { title := "Morning Routine", content := demoContent, userId := "u1"
    structuredData := none }

theorem createPlan_offline_enqueues_and_drain_removes_witness :
    demoCtxOff.online = false ∧
    (∀ q ∈ (demoStoreWith []).queue, q.id ≠ demoCtxOff.freshQueueId) ∧
    (createPlan (demoStoreWith []) demoCtxOff demoCreateInput).1.queue =
      (demoStoreWith []).queue ++
        [{ id := demoCtxOff.freshQueueId, operation := .create
           planId := (createPlan (demoStoreWith []) demoCtxOff demoCreateInput).2.id
           data := some (createPlan (demoStoreWith []) demoCtxOff demoCreateInput).2
           timestamp := demoCtxOff.now, retryCount := 0 }] ∧
    (processSyncQueue (createPlan (demoStoreWith []) demoCtxOff demoCreateInput).1).queue = [] := by
  have h := createPlan_offline_enqueues_and_drain_removes (demoStoreWith [])
    demoCtxOff demoCreateInput rfl (by intro q hq; simp [demoStoreWith] at hq)
  exact ⟨rfl, by intro q hq; simp [demoStoreWith] at hq, h.1, h.2.2⟩

/-! ## C10 -/

/-- A change id that addresses no change of `e`: its extracted index is
unparsable (`-1`) or out of range, so `enhancement.changes[index]` is
`undefined` and the loop records a `'Change not found'` failure. -/
def invalidChangeId (e : Enhancement) (changeId : String) : Prop :=
  extractChangeIndex changeId < 0 ∨
    e.changes.length ≤ (extractChangeIndex changeId).toNat

instance (e : Enhancement) (changeId : String) :
    Decidable (invalidChangeId e changeId) := by
  unfold invalidChangeId
  infer_instance

theorem approveStep_invalid (e : Enhancement) (enhancementId userId : String)
    (now : Nat) (uuid : Nat → String)
    (acc : List ChangeHistoryEntry × BatchOperationResult) (changeId : String)
    (hinv : invalidChangeId e changeId) :
    approveStep e enhancementId userId now uuid acc changeId =
      (acc.1, { acc.2 with
        failed := acc.2.failed ++ [{ id := changeId, error := "Change not found" }] }) := by
  unfold approveStep
  rcases hinv with hneg | hout
  · simp [hneg]
  · have hnone : e.changes[(extractChangeIndex changeId).toNat]? = none :=
      List.getElem?_eq_none hout
    by_cases hneg : extractChangeIndex changeId < 0
    · simp [hneg]
    · simp [hneg, hnone]

theorem approveFold_all_invalid (e : Enhancement) (enhancementId userId : String)
    (now : Nat) (uuid : Nat → String) :
    ∀ (ids : List String) (acc : List ChangeHistoryEntry × BatchOperationResult),
      (∀ cid ∈ ids, invalidChangeId e cid) →
      ids.foldl (approveStep e enhancementId userId now uuid) acc =
        (acc.1, { acc.2 with
          failed := acc.2.failed ++
            ids.map (fun cid => { id := cid, error := "Change not found" }) }) := by
  intro ids
  induction ids with
  | nil => intro acc _; simp
  | cons cid ids ih =>
    intro acc hinv
    rw [List.foldl_cons,
      approveStep_invalid e enhancementId userId now uuid acc cid
        (hinv cid (List.mem_cons_self cid ids)),
      ih _ (fun c hc => hinv c (List.mem_cons_of_mem cid hc))]
    simp

/-- C10: `approveChanges` on an existing enhancement always marks it
`approved` and stamps `appliedAt`, even when every addressed change id
is invalid and the batch result is all failures with no successes —
there is no all-failed guard in front of the status flip. -/
theorem approveChanges_all_invalid_still_approves (st : Store)
    (enhancementId userId : String) (now : Nat) (uuid : Nat → String)
    (ids : List String) (e : Enhancement)
    (hfind : findEnhancement st enhancementId = some e)
    (hinv : ∀ cid ∈ ids, invalidChangeId e cid) :
    approveChanges st enhancementId (some ids) userId now uuid =
      .ok (saveEnhancement st { e with status := .approved, appliedAt := some now },
           { successful := []
             failed := ids.map (fun cid => { id := cid, error := "Change not found" }) }) ∧
    findEnhancement
        (saveEnhancement st { e with status := .approved, appliedAt := some now })
        enhancementId =
      some { e with status := .approved, appliedAt := some now } := by
  constructor
  · unfold approveChanges
    rw [hfind]
    simp only [Option.getD_some]
    rw [approveFold_all_invalid e enhancementId userId now uuid ids _ hinv]
    rfl
  · exact findEnhancement_saveEnhancement st _ enhancementId
      (show ({ e with status := .approved, appliedAt := some now } : Enhancement).id
          = enhancementId from @id_of_findEnhancement st enhancementId e hfind)

def demoChange : Change :=
  { operation := .modify, target := "title", oldValue := .str "A"
    newValue := .str "B", description := "retitle", confidence := some 1 }

def demoPendingEnh : Enhancement :=
  { id := "e1", planId := "p1", type := .structural, changes := [demoChange]
    confidence := 1, reasoning := "demo", status := .pending
    createdAt := 0, appliedAt := none, rejectedAt := none, userFeedback := none }

def demoStore10 : Store :=
  { plans := [], queue := [], enhancements := [demoPendingEnh], history := [] }

theorem approveChanges_all_invalid_still_approves_witness :
    findEnhancement demoStore10 "e1" = some demoPendingEnh ∧
    invalidChangeId demoPendingEnh "bogus" ∧
    approveChanges demoStore10 "e1" (some ["bogus"]) "u" 5 (fun n => "h" ++ toString n) =
      .ok (saveEnhancement demoStore10
             { demoPendingEnh with status := .approved, appliedAt := some 5 },
           { successful := []
             failed := [{ id := "bogus", error := "Change not found" }] }) :=
  ⟨by decide, by decide,
    (approveChanges_all_invalid_still_approves demoStore10 "e1" "u" 5
      (fun n => "h" ++ toString n) ["bogus"] demoPendingEnh (by decide)
      (by intro cid hc; simp at hc; subst hc; decide)).1⟩

/-! ## C2 -/

/-- One version-bumping mutation of the Plan Mutation Service, as
dispatched on a single plan (`createPlan` is separate: it synthesizes
version 1). -/
inductive MutOp where
  | update (input : UpdatePlanInput)
  | addItem (item : NewPlanItem)
  | updateItem (itemId : String) (patch : PlanItemPatch)
  | removeItem (itemId : String)
deriving DecidableEq

/-- Whether the operation addresses the given plan (the item operations
take the plan id as an argument; `update` carries it in its input). -/
def MutOp.targets (planId : String) : MutOp → Bool
  | .update input => input.id == planId
  | _ => true

def runMut (st : Store) (c : MutCtx) (planId : String) :
    MutOp → Except ServiceError (Store × Plan)
  | .update input => updatePlan st c input
  | .addItem item => addPlanItem st c planId item
  | .updateItem itemId patch => updatePlanItem st c planId itemId patch
  | .removeItem itemId => removePlanItem st c planId itemId

/-- A sequence of mutations against one plan, each with its own ambient
context, stopping at the first failure. -/
def runMuts (st : Store) (planId : String) :
    List (MutCtx × MutOp) → Except ServiceError Store
  | [] => .ok st
  | step :: rest =>
    (runMut st step.1 planId step.2).bind (fun r => runMuts r.1 planId rest)

theorem runMut_step (st : Store) (c : MutCtx) (planId : String) (op : MutOp)
    (st' : Store) (p' : Plan) (htgt : op.targets planId = true)
    (hok : runMut st c planId op = .ok (st', p')) :
    findPlan st' planId = some p' ∧
    ∀ q, findPlan st planId = some q → p'.version = q.version + 1 := by
  cases op with
  | update input =>
    have hid : input.id = planId := by
      simpa [MutOp.targets] using htgt
    subst hid
    simp only [runMut] at hok
    unfold updatePlan at hok
    cases hfind : findPlan st input.id with
    | none => rw [hfind] at hok; simp at hok
    | some ex =>
      rw [hfind] at hok
      simp only [Except.ok.injEq, Prod.mk.injEq] at hok
      obtain ⟨hst, hp⟩ := hok
      subst hst hp
      refine ⟨?_, ?_⟩
      · rw [findPlan_queueIfOffline]
        exact findPlan_savePlan _ _ _ rfl
      · intro q hq
        cases hq
        rfl
  | addItem item =>
    simp only [runMut] at hok
    unfold addPlanItem at hok
    cases hfind : findPlan st planId with
    | none => rw [hfind] at hok; simp at hok
    | some plan =>
      rw [hfind] at hok
      simp only [Except.ok.injEq, Prod.mk.injEq] at hok
      obtain ⟨hst, hp⟩ := hok
      subst hst hp
      have hpid : plan.id = planId := id_of_findPlan hfind
      refine ⟨?_, ?_⟩
      · rw [findPlan_queueIfOffline]
        exact findPlan_savePlan _ _ _ hpid
      · intro q hq
        cases hq
        rfl
  | updateItem itemId patch =>
    simp only [runMut] at hok
    unfold updatePlanItem at hok
    split at hok
    next heqfind => simp at hok
    next plan heqfind =>
      split at hok
      next heqidx => simp at hok
      next itemIndex heqidx =>
        split at hok
        next heqget => simp at hok
        next it heqget =>
          simp only [Except.ok.injEq, Prod.mk.injEq] at hok
          obtain ⟨hst, hp⟩ := hok
          subst hst hp
          have hpid : plan.id = planId := id_of_findPlan heqfind
          refine ⟨?_, ?_⟩
          · rw [findPlan_queueIfOffline]
            exact findPlan_savePlan _ _ _ hpid
          · intro q hq
            rw [heqfind] at hq
            cases hq
            rfl
  | removeItem itemId =>
    simp only [runMut] at hok
    unfold removePlanItem at hok
    cases hfind : findPlan st planId with
    | none => rw [hfind] at hok; simp at hok
    | some plan =>
      rw [hfind] at hok
      simp only [Except.ok.injEq, Prod.mk.injEq] at hok
      obtain ⟨hst, hp⟩ := hok
      subst hst hp
      have hpid : plan.id = planId := id_of_findPlan hfind
      refine ⟨?_, ?_⟩
      · rw [findPlan_queueIfOffline]
        exact findPlan_savePlan _ _ _ hpid
      · intro q hq
        cases hq
        rfl

/-- C2: `createPlan` commits version 1, and every successful mutation
of the Plan Mutation Service on one plan (`updatePlan`, `addPlanItem`,
`updatePlanItem`, `removePlanItem`) bumps the stored version by exactly
1, so after N successful mutations the version is the initial version
plus N. -/
theorem version_increments_per_mutation :
    (∀ (st : Store) (c : MutCtx) (input : CreatePlanInput),
      ((createPlan st c input).2).version = 1) ∧
    (∀ (ops : List (MutCtx × MutOp)) (st st' : Store) (planId : String)
        (p p' : Plan),
      ops.all (fun x => MutOp.targets planId x.2) = true →
      findPlan st planId = some p →
      runMuts st planId ops = .ok st' →
      findPlan st' planId = some p' →
      p'.version = p.version + ops.length) := by
  constructor
  · intro st c input
    rfl
  · intro ops
    induction ops with
    | nil =>
      intro st st' planId p p' _ hfind hrun hfind'
      simp only [runMuts, Except.ok.injEq] at hrun
      subst hrun
      rw [hfind] at hfind'
      cases hfind'
      simp
    | cons step rest ih =>
      intro st st' planId p p' hall hfind hrun hfind'
      simp only [List.all_cons, Bool.and_eq_true] at hall
      obtain ⟨htgt, hall'⟩ := hall
      simp only [runMuts] at hrun
      cases hmut : runMut st step.1 planId step.2 with
      | error e => rw [hmut] at hrun; simp [Except.bind] at hrun
      | ok r =>
        obtain ⟨st1, p1⟩ := r
        rw [hmut] at hrun
        simp only [Except.bind] at hrun
        have hstep := runMut_step st step.1 planId step.2 st1 p1 htgt hmut
        have hv := ih st1 st' planId p1 p' hall' hstep.1 hrun hfind'
        have h1 := hstep.2 p hfind
        simp only [List.length_cons]
        omega

def demoStore2 : Store := demoStoreWith [demoPlanWith []]

def demoOps2 : List (MutCtx × MutOp) :=
  [(demoCtxOn, .addItem { text := "Wake up at 6 AM", type := .task
                          status := .pending, aiGenerated := false }),
   (demoCtxOn, .update { id := "p1", title := some "Morning Routine v2" }),
   (demoCtxOn, .removeItem "fresh-1")]

def demoSt2' : Store :=
  (runMuts demoStore2 "p1" demoOps2).toOption.getD demoStore2

def demoP2' : Plan := (findPlan demoSt2' "p1").getD (demoPlanWith [])

theorem version_increments_per_mutation_witness :
    (demoOps2.all (fun x => MutOp.targets "p1" x.2) = true) ∧
    demoP2'.version = (demoPlanWith []).version + demoOps2.length :=
  ⟨by decide,
    (version_increments_per_mutation).2 demoOps2 demoStore2 demoSt2' "p1"
      (demoPlanWith []) demoP2' (by decide) rfl rfl rfl⟩

/-! ## C1 -/

/-- C1 counterexample: the claim says the order invariant survives
`updatePlanItem` with any partial patch.  It does not: starting from a
plan whose single item has `order = 0` (the invariant holds), the patch
`{order: 5}` is spread onto the item verbatim — `updatePlanItem` never
re-indexes — and the committed plan's orders are `[5]`, not a
contiguous zero-based permutation. -/
theorem updatePlanItem_order_patch_breaks_invariant :
    orderInvariant (demoPlanWith [demoItem "i1" 0 .pending]).structuredData.items ∧
    updatePlanItem (demoStoreWith [demoPlanWith [demoItem "i1" 0 .pending]])
        demoCtxOn "p1" "i1" { order := some 5 } =
      .ok ((updatePlanItem (demoStoreWith [demoPlanWith [demoItem "i1" 0 .pending]])
              demoCtxOn "p1" "i1" { order := some 5 }).toOption.getD
            (demoStoreWith [], demoPlanWith [])) ∧
    ¬ orderInvariant
        ((updatePlanItem (demoStoreWith [demoPlanWith [demoItem "i1" 0 .pending]])
            demoCtxOn "p1" "i1" { order := some 5 }).toOption.getD
          (demoStoreWith [], demoPlanWith [])).2.structuredData.items := by
  refine ⟨by decide, by decide, by decide⟩

/-- C1 amended: the order invariant is established by `removePlanItem`
unconditionally (it re-indexes), preserved by `addPlanItem` (the new
item gets `order = items.length`), and preserved by `updatePlanItem`
only when the patch does not set `order`; a patch that sets `order` can
break it (see the counterexample). -/
theorem orderInvariant_preservation :
    (∀ (st : Store) (c : MutCtx) (planId itemId : String) (st' : Store) (p' : Plan),
      removePlanItem st c planId itemId = .ok (st', p') →
      orderInvariant p'.structuredData.items) ∧
    (∀ (st : Store) (c : MutCtx) (planId : String) (item : NewPlanItem)
        (plan : Plan) (st' : Store) (p' : Plan),
      findPlan st planId = some plan →
      orderInvariant plan.structuredData.items →
      addPlanItem st c planId item = .ok (st', p') →
      orderInvariant p'.structuredData.items) ∧
    (∀ (st : Store) (c : MutCtx) (planId itemId : String) (patch : PlanItemPatch)
        (plan : Plan) (st' : Store) (p' : Plan),
      findPlan st planId = some plan →
      orderInvariant plan.structuredData.items →
      patch.order = none →
      updatePlanItem st c planId itemId patch = .ok (st', p') →
      orderInvariant p'.structuredData.items) := by
  refine ⟨?_, ?_, ?_⟩
  · intro st c planId itemId st' p' hok
    unfold removePlanItem at hok
    cases hfind : findPlan st planId with
    | none => rw [hfind] at hok; simp at hok
    | some plan =>
      rw [hfind] at hok
      simp only [Except.ok.injEq, Prod.mk.injEq] at hok
      obtain ⟨-, hp⟩ := hok
      subst hp
      exact orderInvariant_reindexFrom _
  · intro st c planId item plan st' p' hfind hinv hok
    unfold addPlanItem at hok
    rw [hfind] at hok
    simp only [Except.ok.injEq, Prod.mk.injEq] at hok
    obtain ⟨-, hp⟩ := hok
    subst hp
    unfold orderInvariant at hinv ⊢
    simp only [List.map_append, List.length_append, List.map_cons, List.map_nil,
      List.length_cons, List.length_nil]
    rw [List.range_succ]
    exact hinv.append_right _
  · intro st c planId itemId patch plan st' p' hfind hinv hord hok
    unfold updatePlanItem at hok
    split at hok
    next heqfind => simp at hok
    next plan2 heqfind =>
     rw [hfind] at heqfind
     cases heqfind
     split at hok
     next heqidx => simp at hok
     next itemIndex heqidx =>
      split at hok
      next heqget => simp at hok
      next it heqget =>
        simp only [Except.ok.injEq, Prod.mk.injEq] at hok
        obtain ⟨-, hp⟩ := hok
        subst hp
        unfold orderInvariant at hinv ⊢
        have hlt : itemIndex < plan.structuredData.items.length :=
          findIdx?_lt_length heqidx
        have hordeq : (applyItemPatch it patch).order = it.order := by
          simp [applyItemPatch, hord]
        have hitget : plan.structuredData.items.get ⟨itemIndex, hlt⟩ = it := by
          have := List.getElem?_eq_getElem hlt
          rw [heqget] at this
          exact (Option.some.injEq _ _).mp this.symm
        simp only [List.length_set, List.map_set, hordeq]
        have hlt2 : itemIndex < (plan.structuredData.items.map (fun x => x.order)).length := by
          simpa using hlt
        have hv : it.order =
            (plan.structuredData.items.map (fun x => x.order)).get ⟨itemIndex, hlt2⟩ := by
          rw [← hitget]
          simp [List.get_eq_getElem, List.getElem_map]
        have hset : (plan.structuredData.items.map (fun x => x.order)).set itemIndex it.order =
            plan.structuredData.items.map (fun x => x.order) := by
          rw [hv]
          exact set_get_self _ _ hlt2
        rw [hset]
        exact hinv

def demoStore1w : Store :=
  demoStoreWith [demoPlanWith [demoItem "i1" 0 .pending, demoItem "i2" 1 .pending]]

def demoRes1w : Store × Plan :=
  (removePlanItem demoStore1w demoCtxOn "p1" "i1").toOption.getD
    (demoStoreWith [], demoPlanWith [])

theorem orderInvariant_preservation_witness :
    removePlanItem demoStore1w demoCtxOn "p1" "i1" = .ok demoRes1w ∧
    orderInvariant demoRes1w.2.structuredData.items :=
  ⟨by decide,
    (orderInvariant_preservation).1 demoStore1w demoCtxOn "p1" "i1"
      demoRes1w.1 demoRes1w.2 (by decide)⟩

theorem proj_after_saveEnhancement {β : Type} (f : Enhancement → β) (st : Store)
    (e : Enhancement) (enhancementId : String) (hid : e.id = enhancementId) :
    (findEnhancement (saveEnhancement st e) enhancementId).map f = some (f e) := by
  rw [findEnhancement_saveEnhancement st e enhancementId hid]
  rfl

/-! ## C4 -/

def demoRejectedEnh : Enhancement :=
  { id := "e2", planId := "p1", type := .structural, changes := [demoChange]
    confidence := 1, reasoning := "demo", status := .rejected
    createdAt := 0, appliedAt := none, rejectedAt := some 1, userFeedback := none }

def demoStore4 : Store :=
  { plans := [], queue := [], enhancements := [demoRejectedEnh], history := [] }

def demoRes4 : Store × BatchOperationResult :=
  (approveChanges demoStore4 "e2" none "u" 5 (fun n => "h" ++ toString n)).toOption.getD
    (demoStore4, { successful := [], failed := [] })

/-- C4 counterexample: the claim says `approved` and `rejected` are
terminal and no operation changes the status of an already-rejected
Enhancement.  But `approveChanges` never consults the current status:
on a `rejected` enhancement it succeeds and flips the status to
`approved`. -/
theorem approveChanges_flips_rejected_enhancement :
    findEnhancement demoStore4 "e2" = some demoRejectedEnh ∧
    demoRejectedEnh.status = .rejected ∧
    approveChanges demoStore4 "e2" none "u" 5 (fun n => "h" ++ toString n) =
      .ok demoRes4 ∧
    (findEnhancement demoRes4.1 "e2").map (fun e => e.status) = some .approved :=
  ⟨by decide, by decide, rfl, rfl⟩

/-- C4 amended: the enhancement lifecycle is not guarded.
`approveChanges` marks any existing enhancement `approved` (stamping
`appliedAt`) and `rejectChanges` marks it `rejected` (stamping
`rejectedAt`) regardless of its current status, and `editChange`
succeeds for any existing enhancement whose change id parses to a valid
index — the status, terminal or not, is never consulted and never
blocks the edit; `editChange` itself leaves the status unchanged. -/
theorem enhancement_status_ops_unguarded :
    (∀ (st : Store) (enhancementId userId : String) (now : Nat)
        (uuid : Nat → String) (changeIds : Option (List String))
        (st' : Store) (r : BatchOperationResult),
      approveChanges st enhancementId changeIds userId now uuid = .ok (st', r) →
      (findEnhancement st' enhancementId).map (fun e => e.status) = some .approved ∧
      (findEnhancement st' enhancementId).map (fun e => e.appliedAt) = some (some now)) ∧
    (∀ (st : Store) (enhancementId userId : String) (now : Nat)
        (changeIds : Option (List String)) (feedback : Option String)
        (st' : Store) (r : BatchOperationResult),
      rejectChanges st enhancementId changeIds feedback userId now = .ok (st', r) →
      (findEnhancement st' enhancementId).map (fun e => e.status) = some .rejected ∧
      (findEnhancement st' enhancementId).map (fun e => e.rejectedAt) = some (some now)) ∧
    (∀ (st : Store) (enhancementId changeId userId : String) (v : Value)
        (e : Enhancement) (st' : Store),
      findEnhancement st enhancementId = some e →
      editChange st enhancementId changeId v userId = .ok st' →
      (findEnhancement st' enhancementId).map (fun x => x.status) = some e.status) ∧
    (∀ (st : Store) (enhancementId changeId userId : String) (v : Value)
        (e : Enhancement),
      findEnhancement st enhancementId = some e →
      0 ≤ extractChangeIndex changeId →
      extractChangeIndex changeId < (e.changes.length : Int) →
      ∃ st', editChange st enhancementId changeId v userId = .ok st') := by
  refine ⟨?_, ?_, ?_, ?_⟩
  · intro st enhancementId userId now uuid changeIds st' r hok
    unfold approveChanges at hok
    cases hfind : findEnhancement st enhancementId with
    | none => rw [hfind] at hok; simp at hok
    | some e =>
      rw [hfind] at hok
      simp only [Except.ok.injEq, Prod.mk.injEq] at hok
      obtain ⟨hst, -⟩ := hok
      subst hst
      have hid : e.id = enhancementId := id_of_findEnhancement hfind
      exact ⟨proj_after_saveEnhancement _ _ _ _ hid,
        proj_after_saveEnhancement _ _ _ _ hid⟩
  · intro st enhancementId userId now changeIds feedback st' r hok
    unfold rejectChanges at hok
    cases hfind : findEnhancement st enhancementId with
    | none => rw [hfind] at hok; simp at hok
    | some e =>
      rw [hfind] at hok
      simp only [Except.ok.injEq, Prod.mk.injEq] at hok
      obtain ⟨hst, -⟩ := hok
      subst hst
      have hid : e.id = enhancementId := id_of_findEnhancement hfind
      exact ⟨proj_after_saveEnhancement _ _ _ _ hid,
        proj_after_saveEnhancement _ _ _ _ hid⟩
  · intro st enhancementId changeId userId v e st' hfind hok
    unfold editChange at hok
    split at hok
    next heqfind => simp at hok
    next e2 heqfind =>
      rw [hfind] at heqfind
      cases heqfind
      dsimp only at hok
      split at hok
      · simp at hok
      · simp only [Except.ok.injEq] at hok
        subst hok
        have hid : e.id = enhancementId := id_of_findEnhancement hfind
        exact proj_after_saveEnhancement _ _ _ _ hid
  · intro st enhancementId changeId userId v e hfind hge hlt
    have hcond : ¬ (extractChangeIndex changeId < 0 ∨
        (e.changes.length : Int) ≤ extractChangeIndex changeId) := by
      push_neg
      exact ⟨by omega, by omega⟩
    exact ⟨_, by
      unfold editChange
      rw [hfind]
      dsimp only
      rw [dif_neg hcond]⟩

def demoRes4b : Store × BatchOperationResult :=
  (approveChanges demoStore4 "e2" none "u" 9 (fun n => "x" ++ toString n)).toOption.getD
    (demoStore4, { successful := [], failed := [] })

theorem enhancement_status_ops_unguarded_witness :
    approveChanges demoStore4 "e2" none "u" 9 (fun n => "x" ++ toString n) =
      .ok demoRes4b ∧
    (findEnhancement demoRes4b.1 "e2").map (fun e => e.status) = some .approved :=
  ⟨rfl,
    ((enhancement_status_ops_unguarded).1 demoStore4 "e2" "u" 9
      (fun n => "x" ++ toString n) none demoRes4b.1 demoRes4b.2 rfl).1⟩

/-! ## C5 -/

def demoStore5 : Store := demoStoreWith [demoPlanWith [demoItem "i1" 0 .pending]]

def demoRes5 : Store × Plan :=
  (removePlanItem demoStore5 demoCtxOn "p1" "ghost-item").toOption.getD
    (demoStoreWith [], demoPlanWith [])

/-- C5 counterexample: the claim says `deletePlan` of a non-existent
plan and `removePlanItem` of a non-existent item raise not-found
conditions.  Neither does: deleting the absent id `"ghost"` succeeds
and leaves the store as it was (the underlying key-delete is a no-op),
and removing the absent item id `"ghost-item"` succeeds, removes
nothing, and still commits a version bump. -/
theorem missing_target_operations_succeed :
    findPlan demoStore5 "ghost" = none ∧
    deletePlan demoStore5 demoCtxOn "ghost" = demoStore5 ∧
    (demoPlanWith [demoItem "i1" 0 .pending]).structuredData.items.all
      (fun it => it.id != "ghost-item") = true ∧
    removePlanItem demoStore5 demoCtxOn "p1" "ghost-item" = .ok demoRes5 ∧
    demoRes5.2.version = (demoPlanWith [demoItem "i1" 0 .pending]).version + 1 ∧
    demoRes5.2.structuredData.items.length = 1 :=
  ⟨by decide, by decide, by decide, rfl, by decide, by decide⟩

/-- C5 amended: `updatePlan` on a non-existent plan raises the
not-found condition and performs no write (the error return carries no
store), and `updatePlanItem` on a non-existent item raises the
item-scoped not-found condition; but `deletePlan` on a non-existent
plan succeeds silently with the plans collection unchanged, and
`removePlanItem` on a non-existent item succeeds, leaving the items
(up to re-indexing) intact while still committing a version bump. -/
theorem notFound_behavior_amended :
    (∀ (st : Store) (c : MutCtx) (input : UpdatePlanInput),
      findPlan st input.id = none →
      updatePlan st c input = .error .planNotFound) ∧
    (∀ (st : Store) (c : MutCtx) (planId itemId : String) (patch : PlanItemPatch)
        (plan : Plan),
      findPlan st planId = some plan →
      (∀ it ∈ plan.structuredData.items, it.id ≠ itemId) →
      updatePlanItem st c planId itemId patch = .error .planItemNotFound) ∧
    (∀ (st : Store) (c : MutCtx) (planId : String),
      findPlan st planId = none →
      (deletePlan st c planId).plans = st.plans) ∧
    (∀ (st : Store) (c : MutCtx) (planId itemId : String) (plan : Plan),
      findPlan st planId = some plan →
      (∀ it ∈ plan.structuredData.items, it.id ≠ itemId) →
      (removePlanItem st c planId itemId).map
          (fun r => (r.2.structuredData.items, r.2.version)) =
        .ok (reindexFrom 0 plan.structuredData.items, plan.version + 1)) := by
  refine ⟨?_, ?_, ?_, ?_⟩
  · intro st c input h
    unfold updatePlan
    rw [h]
  · intro st c planId itemId patch plan hfind hmem
    have hidx : plan.structuredData.items.findIdx? (fun it => it.id == itemId) = none := by
      rw [List.findIdx?_eq_none_iff]
      intro x hx
      simpa using hmem x hx
    simp [updatePlanItem, hfind, hidx]
  · intro st c planId h
    have hall : ∀ p ∈ st.plans, (p.id != planId) = true := by
      intro p hp
      have := List.find?_eq_none.mp h p hp
      simpa using this
    unfold deletePlan deletePlanRecord queueIfOffline addToSyncQueue
    by_cases ho : c.online <;>
      simp [ho, List.filter_eq_self.mpr hall]
  · intro st c planId itemId plan hfind hmem
    have hfilter : plan.structuredData.items.filter (fun it => it.id != itemId) =
        plan.structuredData.items := by
      rw [List.filter_eq_self]
      intro x hx
      simpa using hmem x hx
    simp [removePlanItem, hfind, hfilter, Except.map]

theorem notFound_behavior_amended_witness :
    findPlan (demoStoreWith []) "nope" = none ∧
    updatePlan (demoStoreWith []) demoCtxOn { id := "nope" } =
      .error .planNotFound :=
  ⟨by decide,
    (notFound_behavior_amended).1 (demoStoreWith []) demoCtxOn
      { id := "nope" } (by decide)⟩

/-! ## C3 -/

def demoHistoryEntry : ChangeHistoryEntry :=
  { id := "h1", enhancementId := "e1", planId := "p1", changeId := "e1-change-0"
    appliedAt := 3, appliedBy := "u", originalValue := .str "A"
    appliedValue := .str "B", rollbackData := some (.forward .modify "title") }

def demoStore3 : Store :=
  { plans := [demoPlanWith []], queue := [], enhancements := []
    history := [demoHistoryEntry] }

def demoRes3 : Store :=
  (rollbackChange demoStore3 "h1" "u" 9 "re" "rh").toOption.getD demoStore3

/-- C3 counterexample: the claim says `rollbackChange(h.id)` followed
by re-reading the Plan restores h's original value at h's target path.
It does not: `rollbackChange` records the inverse edit (as an approved
rollback enhancement plus a history entry) but never writes the plans
store, so with h recording that `title` went from `"A"` to `"B"`, the
re-read plan still has `title = "B"` ≠ `"A"` after the rollback. -/
theorem rollbackChange_does_not_restore_plan :
    findHistoryEntry demoStore3 "h1" = some demoHistoryEntry ∧
    demoHistoryEntry.originalValue = .str "A" ∧
    rollbackChange demoStore3 "h1" "u" 9 "re" "rh" = .ok demoRes3 ∧
    demoRes3.plans = demoStore3.plans ∧
    (findPlan demoRes3 "p1").map (fun p => planValueAt p "title") =
      some (.str "B") ∧
    Value.str "B" ≠ demoHistoryEntry.originalValue :=
  ⟨by decide, by decide, rfl, rfl, by decide, by decide⟩

/-- C3 amended: `rollbackChange` on an existing history entry succeeds
and appends exactly one new `ChangeHistoryEntry` — the inverse edit,
with original/applied values swapped and flagged `isRollback` with a
pointer to the rolled-back entry — while the original entry stays in
the store untouched; the plans store (and the sync queue) is not
written at all, so re-reading the Plan returns it unchanged rather than
with the pre-change value restored.  The freshness hypothesis models
`crypto.randomUUID` not colliding with an existing history id. -/
theorem rollbackChange_appends_inverse_history (st : Store)
    (entryId userId : String) (now : Nat) (uuidE uuidH : String)
    (entry : ChangeHistoryEntry) (st' : Store)
    (hfind : findHistoryEntry st entryId = some entry)
    (hfresh : ∀ h ∈ st.history, h.id ≠ uuidH)
    (hok : rollbackChange st entryId userId now uuidE uuidH = .ok st') :
    st'.plans = st.plans ∧
    st'.queue = st.queue ∧
    st'.history = st.history ++
      [{ id := uuidH, enhancementId := uuidE, planId := entry.planId
         changeId := uuidE ++ "-change-0", appliedAt := now, appliedBy := userId
         originalValue := entry.appliedValue, appliedValue := entry.originalValue
         rollbackData := some (.rollbackInfo entryId) }] ∧
    entry ∈ st'.history := by
  unfold rollbackChange at hok
  rw [hfind] at hok
  simp only [Except.ok.injEq] at hok
  subst hok
  have happend := upsertBy_eq_append (fun x => x.id) st.history
    { id := uuidH, enhancementId := uuidE, planId := entry.planId
      changeId := uuidE ++ "-change-0", appliedAt := now, appliedBy := userId
      originalValue := entry.appliedValue, appliedValue := entry.originalValue
      rollbackData := some (.rollbackInfo entryId) } hfresh
  refine ⟨rfl, rfl, ?_, ?_⟩
  · unfold saveChangeHistoryEntries saveEnhancement
    simpa using happend
  · unfold saveChangeHistoryEntries saveEnhancement
    simp only [List.foldl_cons, List.foldl_nil]
    rw [show (upsertBy (fun x => x.id) st.history
        { id := uuidH, enhancementId := uuidE, planId := entry.planId
          changeId := uuidE ++ "-change-0", appliedAt := now, appliedBy := userId
          originalValue := entry.appliedValue, appliedValue := entry.originalValue
          rollbackData := some (.rollbackInfo entryId) }) =
      st.history ++ [_] from happend]
    exact List.mem_append_left _ (List.mem_of_find?_eq_some hfind)

theorem rollbackChange_appends_inverse_history_witness :
    demoStore3.history.all (fun h => h.id != "rh2") = true ∧
    ((rollbackChange demoStore3 "h1" "u" 9 "re2" "rh2").toOption.getD demoStore3).plans =
      demoStore3.plans :=
  ⟨by decide,
    (rollbackChange_appends_inverse_history demoStore3 "h1" "u" 9 "re2" "rh2"
      demoHistoryEntry
      ((rollbackChange demoStore3 "h1" "u" 9 "re2" "rh2").toOption.getD demoStore3)
      (by decide) (by decide) rfl).1⟩
